import Mathlib

/-!
Verification of the `synopsize` column-synopsis core.

A shallow embedding of the TypeScript column-synopsis engine (the type-inference
cascade, type-aware comparators, sorting, and frequency counting of
`src/index.ts`), together with theorems settling the specification claims.

JavaScript values flowing through `synopsize` are either strings or the
`undefined` sentinel; `String(v)` coerces `undefined` to the string
`"undefined"`.  Arrays become `List`, `Map` becomes an insertion-ordered
association list, regular expressions become decidable predicates over the
character list of the string, and the in-place `Array.prototype.sort` becomes
a pure sort whose result is stored in the record fields the source reads after
the mutation.
-/

namespace Synopsize

/-- A JavaScript value as seen by `synopsize`: a string, or `undefined`. -/
inductive JSValue where
  | undef : JSValue
  | str : String → JSValue
deriving DecidableEq, Repr

/-- `String(v)`: JavaScript string coercion. `String(undefined)` is the
eight-character string `"undefined"`. -/
def jsString : JSValue → String
  | .undef => "undefined"
  | .str s => s

/-! ## Character classes used by the validation patterns -/

/-- `\d` -/
def isDigit (c : Char) : Bool := '0' ≤ c && c ≤ '9'

/-- `[12]` -/
def is12 (c : Char) : Bool := c = '1' || c = '2'

/-- `[01]` -/
def is01 (c : Char) : Bool := c = '0' || c = '1'

/-- `[012]` -/
def is012 (c : Char) : Bool := c = '0' || c = '1' || c = '2'

/-- `[0123]` -/
def is0123 (c : Char) : Bool := c = '0' || c = '1' || c = '2' || c = '3'

/-- `[0-5]` -/
def is05 (c : Char) : Bool := '0' ≤ c && c ≤ '5'

/-- JavaScript's `\s` character class (ECMAScript WhiteSpace ∪ LineTerminator). -/
def jsWhitespace (c : Char) : Bool :=
  c = ' ' || c = '\t' || c = '\n' || c = '\r' ||
  c = Char.ofNat 0x0B || c = Char.ofNat 0x0C ||
  c = Char.ofNat 0xA0 || c = Char.ofNat 0x1680 ||
  (Char.ofNat 0x2000 ≤ c && c ≤ Char.ofNat 0x200A) ||
  c = Char.ofNat 0x2028 || c = Char.ofNat 0x2029 ||
  c = Char.ofNat 0x202F || c = Char.ofNat 0x205F ||
  c = Char.ofNat 0x3000 || c = Char.ofNat 0xFEFF

/-- `isEmpty` from the source: true for the `undefined` sentinel, and for
strings matching `/^\s*$/` (entirely whitespace, including the empty string).
Note that call sites in the source invoke it as `isEmpty(String(value))`, so
the `undefined` branch is reachable only when the argument itself is the
sentinel, not the coercion of one. -/
def isEmpty : JSValue → Bool
  | .undef => true
  | .str s => s.data.all jsWhitespace

/-! ## Validation patterns

Each regular expression of the source is rendered as a decidable matcher over
the string's character list, anchored start-to-end as `^...$` requires.
The `(-?)...\1` backreference of the date patterns is deterministic: when the
separator group matched `-`, the month class `[01]` cannot match `-`, so the
dashed and dashless alternatives never overlap. -/

/-- Month-and-day tail of `DATE`: `(-?)[01]\d\1[0123]\d$` with the year's
separator group. -/
def matchMonthDay : List Char → Bool
  | '-' :: m1 :: m2 :: '-' :: d1 :: d2 :: [] =>
      is01 m1 && isDigit m2 && is0123 d1 && isDigit d2
  | m1 :: m2 :: d1 :: d2 :: [] =>
      is01 m1 && isDigit m2 && is0123 d1 && isDigit d2
  | _ => false

/-- `DATE`: `/^[12]\d{3}(-?)[01]\d\1[0123]\d$/` -/
def matchDATE (s : String) : Bool :=
  match s.data with
  | y1 :: y2 :: y3 :: y4 :: rest =>
      is12 y1 && isDigit y2 && isDigit y3 && isDigit y4 && matchMonthDay rest
  | _ => false

/-- `(:[0-5]\d)?Z?$`: optional seconds, optional trailing `Z`. -/
def matchSecondsZ : List Char → Bool
  | [] => true
  | ['Z'] => true
  | ':' :: s1 :: s2 :: rest =>
      is05 s1 && isDigit s2 && (rest = [] || rest = ['Z'])
  | _ => false

/-- `\d:[0-5]\d(:[0-5]\d)?Z?$`: the time tail once the optional `[012]`
hour prefix has been decided. -/
def matchHourTail : List Char → Bool
  | d :: ':' :: m1 :: m2 :: rest =>
      isDigit d && is05 m1 && isDigit m2 && matchSecondsZ rest
  | _ => false

/-- `[012]?\d:[0-5]\d(:[0-5]\d)?Z?$`: both alternatives of the optional
`[012]` hour prefix, as regular-expression alternation. -/
def matchTimeTail (cs : List Char) : Bool :=
  matchHourTail cs ||
    (match cs with
     | h :: rest => is012 h && matchHourTail rest
     | [] => false)

/-- Month, day, `[T ]` separator and time tail of `DATETIME`:
`(-?)[01]\d\1[0123]\d[T ][012]?\d:[0-5]\d(:[0-5]\d)?Z?$`. -/
def matchMonthDayTime : List Char → Bool
  | '-' :: m1 :: m2 :: '-' :: d1 :: d2 :: t :: rest =>
      is01 m1 && isDigit m2 && is0123 d1 && isDigit d2 &&
      (t = 'T' || t = ' ') && matchTimeTail rest
  | m1 :: m2 :: d1 :: d2 :: t :: rest =>
      is01 m1 && isDigit m2 && is0123 d1 && isDigit d2 &&
      (t = 'T' || t = ' ') && matchTimeTail rest
  | _ => false

/-- `DATETIME`: `/^[12]\d{3}(-?)[01]\d\1[0123]\d[T ][012]?\d:[0-5]\d(:[0-5]\d)?Z?$/` -/
def matchDATETIME (s : String) : Bool :=
  match s.data with
  | y1 :: y2 :: y3 :: y4 :: rest =>
      is12 y1 && isDigit y2 && isDigit y3 && isDigit y4 && matchMonthDayTime rest
  | _ => false

/-- Strip the optional leading `-?` sign. -/
def stripSign : List Char → List Char
  | '-' :: t => t
  | t => t

/-- `^-?\d{1,n}$`: shared shape of `INTEGER` (n = 10) and `BIGINT` (n = 19). -/
def matchIntLike (maxLen : Nat) (s : String) : Bool :=
  let ds := stripSign s.data
  !ds.isEmpty && ds.length ≤ maxLen && ds.all isDigit

/-- `INTEGER`: `/^-?\d{1,10}$/` -/
def matchINTEGER (s : String) : Bool := matchIntLike 10 s

/-- `BIGINT`: `/^-?\d{1,19}$/` -/
def matchBIGINT (s : String) : Bool := matchIntLike 19 s

/-- The three alternatives `\d+|\.\d+|\d+\.\d*` of `REAL` after the sign.
For the third alternative the digits before the `.` are exactly the maximal
digit prefix, since a digit cannot follow them without being part of `\d+`. -/
def matchREALBody (cs : List Char) : Bool :=
  (!cs.isEmpty && cs.all isDigit) ||
  (match cs with
   | '.' :: t => !t.isEmpty && t.all isDigit
   | _ => false) ||
  (let p := cs.takeWhile isDigit
   let q := cs.dropWhile isDigit
   !p.isEmpty &&
     (match q with
      | '.' :: t => t.all isDigit
      | _ => false))

/-- `REAL`: `/^-?(\d+|\.\d+|\d+\.\d*)$/` -/
def matchREAL (s : String) : Bool := matchREALBody (stripSign s.data)

/-- `\d:[0-5]\d$` once the optional `[012]` hour prefix has been decided. -/
def matchTIMECore : List Char → Bool
  | d :: ':' :: m1 :: m2 :: [] => isDigit d && is05 m1 && isDigit m2
  | _ => false

/-- `TIME`: `/^[012]?\d:[0-5]\d$/` -/
def matchTIME (s : String) : Bool :=
  matchTIMECore s.data ||
    (match s.data with
     | h :: rest => is012 h && matchTIMECore rest
     | [] => false)

/-! ## Comparators

`compareStrings` is `a.localeCompare(b)`, modelled as code-point lexicographic
comparison (for the zero-padded ISO-like strings it is applied to, locale
collation and code-point order agree).  `compareNumbers` is `a - b` after
JavaScript numeric coercion; only its sign is consumed by the sort, so it is
modelled as the sign of the exact difference of the decimal values (for the
strings admitted by the numeric validation patterns, `Number()` parses the
plain decimal literal). -/

/-- Three-way code-point comparison of character lists. -/
def strCompare : List Char → List Char → Int
  | [], [] => 0
  | [], _ :: _ => -1
  | _ :: _, [] => 1
  | a :: as, b :: bs =>
      if a < b then -1 else if b < a then 1 else strCompare as bs

/-- `compareStrings(a, b) = a.localeCompare(b)` on the string coercions. -/
def compareStrings (a b : JSValue) : Int :=
  strCompare (jsString a).data (jsString b).data

/-- Decimal value of a digit run (most significant first). -/
def digitsToNat (cs : List Char) : Nat :=
  cs.foldl (fun n c => n * 10 + (c.toNat - 48)) 0

/-- `Number(s)` for the decimal literals admitted by the numeric patterns,
as an exact pair (numerator, number of fractional digits): the value is
`numerator / 10 ^ scale`.  Strings outside that set coerce to `NaN` in
JavaScript; they are never compared numerically by `synopsize`, because the
numeric comparators are selected only when every value matched a numeric
pattern, so the returned junk value for them is irrelevant. -/
def jsNumber (s : String) : Int × Nat :=
  let body := stripSign s.data
  let neg : Bool := match s.data with
    | '-' :: _ => true
    | _ => false
  let intPart := body.takeWhile isDigit
  let rest := body.dropWhile isDigit
  let fracPart := match rest with
    | '.' :: t => t
    | _ => []
  let mag : Int := Int.ofNat (digitsToNat (intPart ++ fracPart))
  (if neg then -mag else mag, fracPart.length)

/-- `compareNumbers(a, b) = a - b` after numeric coercion: the sign of the
exact difference of the two decimal values, obtained by cross-multiplying the
scaled representations. -/
def compareNumbers (a b : JSValue) : Int :=
  let p := jsNumber (jsString a)
  let q := jsNumber (jsString b)
  let x := p.1 * (10 : Int) ^ q.2
  let y := q.1 * (10 : Int) ^ p.2
  if x < y then -1 else if y < x then 1 else 0

/-! ## The type table and the classifier -/

/-- One entry of the classifier table: name, validation pattern (as a decidable
predicate — the compiled `regExp.test`), and the comparator used for sorting. -/
structure ScalarType where
  id : String
  regExpTest : String → Bool
  compareFunction : JSValue → JSValue → Int

/-- `test(values)`: `values.every(value => regExp.test(String(value)))`. -/
def ScalarType.test (t : ScalarType) (values : List JSValue) : Bool :=
  values.all (fun v => t.regExpTest (jsString v))

/-- The ordered candidate table `knownTypes` of the source, from more- to
less-specific. -/
def knownTypes : List ScalarType :=
  [ ⟨"DATETIME", matchDATETIME, compareStrings⟩,
    ⟨"DATE", matchDATE, compareStrings⟩,
    ⟨"INTEGER", matchINTEGER, compareNumbers⟩,
    ⟨"BIGINT", matchBIGINT, compareNumbers⟩,
    ⟨"REAL", matchREAL, compareNumbers⟩,
    ⟨"TIME", matchTIME, compareStrings⟩ ]

/-- `defaultType`: the `TEXT` fallback, whose `test` is hard-coded to true. -/
def defaultType : ScalarType :=
  ⟨"TEXT", fun _ => true, compareStrings⟩

/-- The `for (let knownType of knownTypes)` loop body of `inferType`:
return the first table entry whose pattern matches every value. -/
def findType (values : List JSValue) : List ScalarType → ScalarType
  | [] => defaultType
  | t :: rest => if t.test values then t else findType values rest

/-- `inferType`: run the cascade on a non-empty sequence; an empty sequence is
short-circuited to the `TEXT` fallback without testing any candidate, because
`every` is vacuously true on an empty array. -/
def inferType (values : List JSValue) : ScalarType :=
  if 0 < values.length then findType values knownTypes else defaultType

/-! ## Frequency counting

`count` builds a `Map` by iterating the values; a JavaScript `Map` is an
insertion-ordered dictionary whose `set` overwrites an existing key in place,
modelled as an association list. -/

/-- One iteration of the `forEach` body of `count`:
`counts.set(value, (counts.has(value) ? counts.get(value) : 0) + 1)`. -/
def countStep (counts : List (JSValue × Nat)) (value : JSValue) :
    List (JSValue × Nat) :=
  match counts with
  | [] => [(value, 1)]
  | (k, n) :: rest =>
      if k = value then (k, n + 1) :: rest else (k, n) :: countStep rest value

/-- `count(values)`: the frequency tabulation, in first-occurrence order. -/
def count (values : List JSValue) : List (JSValue × Nat) :=
  values.foldl countStep []

/-- `Map.get` / `Map.has`: the count stored for a key, if present. -/
def lookupCount : List (JSValue × Nat) → JSValue → Option Nat
  | [], _ => none
  | (k, n) :: rest, v => if k = v then some n else lookupCount rest v

/-! ## Sorting

`Array.prototype.sort(compareFunction)` sorts the defined elements by the
comparator and places all `undefined` elements at the end without ever passing
them to the comparator.  The comparator-directed part is modelled as a stable
insertion sort (elements are taken left to right; a new element passes an
existing one only when strictly smaller). -/

/-- Insert `x` into `l`, before the first element strictly greater than `x`
under `cmp`. -/
def insertSorted (cmp : JSValue → JSValue → Int) (x : JSValue) :
    List JSValue → List JSValue
  | [] => [x]
  | y :: ys =>
      if cmp x y < 0 then x :: y :: ys else y :: insertSorted cmp x ys

/-- Comparator-directed stable insertion sort. -/
def sortByCmp (cmp : JSValue → JSValue → Int) (l : List JSValue) :
    List JSValue :=
  l.foldl (fun acc x => insertSorted cmp x acc) []

/-- `array.sort(cmp)`: defined elements in comparator order, `undefined`
elements moved to the end. -/
def jsSort (cmp : JSValue → JSValue → Int) (l : List JSValue) :
    List JSValue :=
  sortByCmp cmp (l.filter (fun v => v ≠ JSValue.undef)) ++
    l.filter (fun v => v = JSValue.undef)

/-- `array[i]`: `undefined` when the index is out of bounds (including the
`array[length - 1]` read on an empty array, where `length - 1` truncates to
`0` in this `Nat` model and is out of bounds anyway). -/
def jsIndex (l : List JSValue) (i : Nat) : JSValue :=
  (l.get? i).getD JSValue.undef

/-! ## The synopsis aggregator -/

/-- The output record of `synopsize`.  `minimum`/`maximum` are `JSValue`
because an out-of-bounds array read yields `undefined`. -/
structure ColumnSynopsis where
  typeName : String
  values : List JSValue
  nonEmptyValues : List JSValue
  minimum : JSValue
  maximum : JSValue
  counts : List (JSValue × Nat)
deriving DecidableEq, Repr

/-- The filter of `synopsize`: `values.filter(value => !isEmpty(String(value)))`.
The string coercion happens before `isEmpty` is applied, so the `undefined`
sentinel is coerced to the non-whitespace string `"undefined"` and survives
the filter. -/
def filterNonEmpty (values : List JSValue) : List JSValue :=
  values.filter (fun v => !isEmpty (JSValue.str (jsString v)))

/-- `synopsize`.  `nonEmptyValues.sort(...)` sorts in place and returns the
same array, so by the time the record is built, `nonEmptyValues`,
`sortedNonEmptyValues` and the argument of `count` are all the sorted array;
only `inferType` ran before the mutation (its `every`-based tests are
order-insensitive). -/
def synopsize (values : List JSValue) : ColumnSynopsis :=
  let nonEmptyValues := filterNonEmpty values
  let type := inferType nonEmptyValues
  let sortedNonEmptyValues := jsSort type.compareFunction nonEmptyValues
  { typeName := type.id
    values := values
    nonEmptyValues := sortedNonEmptyValues
    minimum := jsIndex sortedNonEmptyValues 0
    maximum := jsIndex sortedNonEmptyValues (sortedNonEmptyValues.length - 1)
    counts := count sortedNonEmptyValues }

/-! ## Lemmas about the frequency counter -/

/-- The count stored for a key, defaulting to zero: `counts.has(v) ? counts.get(v) : 0`. -/
def lookupD (m : List (JSValue × Nat)) (v : JSValue) : Nat :=
  (lookupCount m v).getD 0

/-- Total of all stored counts. -/
def sumCounts (m : List (JSValue × Nat)) : Nat :=
  (m.map Prod.snd).sum

theorem lookupCount_countStep_self (m : List (JSValue × Nat)) (v : JSValue) :
    lookupCount (countStep m v) v = some (lookupD m v + 1) := by
  induction m with
  | nil => simp [countStep, lookupCount, lookupD]
  | cons kn rest ih =>
    obtain ⟨k, n⟩ := kn
    by_cases hk : k = v
    · subst hk
      simp [countStep, lookupCount, lookupD]
    · simp [countStep, lookupCount, lookupD, hk] at ih ⊢
      exact ih

theorem lookupCount_countStep_ne (m : List (JSValue × Nat)) (u v : JSValue)
    (h : u ≠ v) : lookupCount (countStep m u) v = lookupCount m v := by
  induction m with
  | nil => simp [countStep, lookupCount, h]
  | cons kn rest ih =>
    obtain ⟨k, n⟩ := kn
    by_cases hk : k = u
    · subst hk
      simp [countStep, lookupCount, h]
    · by_cases hv : k = v
      · subst hv
        simp [countStep, lookupCount, hk]
      · simp [countStep, lookupCount, hk, hv, ih]

theorem sumCounts_cons (k : JSValue) (n : Nat) (t : List (JSValue × Nat)) :
    sumCounts ((k, n) :: t) = n + sumCounts t := by
  simp [sumCounts]

theorem sumCounts_countStep (m : List (JSValue × Nat)) (v : JSValue) :
    sumCounts (countStep m v) = sumCounts m + 1 := by
  induction m with
  | nil => simp [countStep, sumCounts]
  | cons kn rest ih =>
    obtain ⟨k, n⟩ := kn
    by_cases hk : k = v
    · subst hk
      have hstep : countStep ((k, n) :: rest) k = (k, n + 1) :: rest := by
        simp [countStep]
      rw [hstep, sumCounts_cons, sumCounts_cons]
      omega
    · have hstep : countStep ((k, n) :: rest) v = (k, n) :: countStep rest v := by
        simp [countStep, hk]
      rw [hstep, sumCounts_cons, sumCounts_cons, ih]
      omega

theorem isSome_lookupCount_countStep (m : List (JSValue × Nat)) (u v : JSValue) :
    (lookupCount (countStep m u) v).isSome ↔
      (lookupCount m v).isSome ∨ v = u := by
  by_cases h : u = v
  · subst h
    simp [lookupCount_countStep_self]
  · rw [lookupCount_countStep_ne m u v h]
    constructor
    · intro hs
      exact Or.inl hs
    · rintro (hs | rfl)
      · exact hs
      · exact absurd rfl h

theorem lookupD_foldl_countStep (l : List JSValue) (m : List (JSValue × Nat))
    (v : JSValue) :
    lookupD (l.foldl countStep m) v = lookupD m v + l.count v := by
  induction l generalizing m with
  | nil => simp
  | cons x xs ih =>
    rw [List.foldl_cons, ih, List.count_cons]
    by_cases hx : x = v
    · subst hx
      simp [lookupD, lookupCount_countStep_self]
      omega
    · rw [lookupD, lookupCount_countStep_ne m x v hx]
      simp [hx, lookupD]

theorem isSome_lookupCount_foldl (l : List JSValue) (m : List (JSValue × Nat))
    (v : JSValue) :
    (lookupCount (l.foldl countStep m) v).isSome ↔
      (lookupCount m v).isSome ∨ v ∈ l := by
  induction l generalizing m with
  | nil => simp
  | cons x xs ih =>
    rw [List.foldl_cons, ih, isSome_lookupCount_countStep]
    simp only [List.mem_cons]
    tauto

theorem sumCounts_foldl (l : List JSValue) (m : List (JSValue × Nat)) :
    sumCounts (l.foldl countStep m) = sumCounts m + l.length := by
  induction l generalizing m with
  | nil => simp
  | cons x xs ih =>
    rw [List.foldl_cons, ih, sumCounts_countStep]
    simp only [List.length_cons]
    omega

theorem lookupCount_count_of_mem (l : List JSValue) (v : JSValue) (h : v ∈ l) :
    lookupCount (count l) v = some (l.count v) := by
  have hs : (lookupCount (count l) v).isSome := by
    rw [count, isSome_lookupCount_foldl]
    exact Or.inr h
  have hd : lookupD (count l) v = l.count v := by
    have := lookupD_foldl_countStep l [] v
    simpa [count, lookupD, lookupCount] using this
  obtain ⟨n, hn⟩ := Option.isSome_iff_exists.mp hs
  rw [hn]
  rw [lookupD, hn] at hd
  simpa using hd

theorem lookupCount_count_of_not_mem (l : List JSValue) (v : JSValue)
    (h : v ∉ l) : lookupCount (count l) v = none := by
  have hs : ¬(lookupCount (count l) v).isSome := by
    rw [count, isSome_lookupCount_foldl]
    simp [lookupCount, h]
  simpa [Option.not_isSome_iff_eq_none] using hs

theorem sumCounts_count (l : List JSValue) :
    sumCounts (count l) = l.length := by
  have := sumCounts_foldl l []
  simpa [count, sumCounts] using this

/-! ## Lemmas about the sort -/

theorem insertSorted_perm (cmp : JSValue → JSValue → Int) (x : JSValue)
    (l : List JSValue) : (insertSorted cmp x l).Perm (x :: l) := by
  induction l with
  | nil => simp [insertSorted]
  | cons y ys ih =>
    by_cases h : cmp x y < 0
    · simp [insertSorted, h]
    · simp only [insertSorted, if_neg h]
      exact (ih.cons y).trans (List.Perm.swap x y ys)

theorem foldl_insertSorted_perm (cmp : JSValue → JSValue → Int)
    (l acc : List JSValue) :
    (l.foldl (fun a x => insertSorted cmp x a) acc).Perm (l ++ acc) := by
  induction l generalizing acc with
  | nil => simp
  | cons x xs ih =>
    rw [List.foldl_cons]
    have step : (xs ++ insertSorted cmp x acc).Perm (x :: xs ++ acc) :=
      ((insertSorted_perm cmp x acc).append_left xs).trans List.perm_middle
    exact (ih (insertSorted cmp x acc)).trans step

theorem sortByCmp_perm (cmp : JSValue → JSValue → Int) (l : List JSValue) :
    (sortByCmp cmp l).Perm l := by
  have := foldl_insertSorted_perm cmp l []
  simpa [sortByCmp] using this

theorem jsSort_perm (cmp : JSValue → JSValue → Int) (l : List JSValue) :
    (jsSort cmp l).Perm l := by
  unfold jsSort
  have h1 : (sortByCmp cmp (l.filter (fun v => v ≠ JSValue.undef))).Perm
      (l.filter (fun v => v ≠ JSValue.undef)) := sortByCmp_perm _ _
  have h2 : (l.filter (fun v => v ≠ JSValue.undef) ++
      l.filter (fun v => v = JSValue.undef)).Perm l := by
    have hcongr : l.filter (fun v => v = JSValue.undef) =
        l.filter (fun v => !(decide (v ≠ JSValue.undef))) := by
      apply List.filter_congr
      intro v _
      by_cases hv : v = JSValue.undef <;> simp [hv]
    rw [hcongr]
    exact List.filter_append_perm _ l
  exact (h1.append_right _).trans h2

/-! ## Order properties of the comparators -/

/-- A comparator is consistent when swapping its arguments negates it and the
relation `cmp a b ≤ 0` is transitive — the conditions under which a
comparison sort produces a totally ordered result. -/
def CmpOk (cmp : JSValue → JSValue → Int) : Prop :=
  (∀ a b, cmp b a = -cmp a b) ∧
  (∀ a b c, cmp a b ≤ 0 → cmp b c ≤ 0 → cmp a c ≤ 0)

theorem strCompare_swap (a : List Char) :
    ∀ b, strCompare b a = -strCompare a b := by
  induction a with
  | nil =>
    intro b
    cases b <;> simp [strCompare]
  | cons x xs ih =>
    intro b
    cases b with
    | nil => simp [strCompare]
    | cons y ys =>
      rcases lt_trichotomy x y with hlt | heq | hgt
      · simp [strCompare, hlt, asymm hlt]
      · subst heq
        simp [strCompare, lt_irrefl, ih ys]
      · simp [strCompare, hgt, asymm hgt]

theorem strCompare_eq_zero (a : List Char) :
    ∀ b, strCompare a b = 0 → a = b := by
  induction a with
  | nil =>
    intro b
    cases b <;> simp [strCompare]
  | cons x xs ih =>
    intro b
    cases b with
    | nil => simp [strCompare]
    | cons y ys =>
      rcases lt_trichotomy x y with hlt | heq | hgt
      · simp [strCompare, hlt]
      · subst heq
        simp only [strCompare, lt_irrefl, if_neg (lt_irrefl x)]
        intro h
        rw [ih ys h]
      · simp [strCompare, hgt, asymm hgt]

theorem strCompare_lt_trans (a : List Char) :
    ∀ b c, strCompare a b < 0 → strCompare b c < 0 → strCompare a c < 0 := by
  induction a with
  | nil =>
    intro b c hab hbc
    cases b with
    | nil => simp [strCompare] at hab
    | cons y ys =>
      cases c with
      | nil => simp [strCompare] at hbc
      | cons z zs => simp [strCompare]
  | cons x xs ih =>
    intro b c hab hbc
    cases b with
    | nil => simp [strCompare] at hab
    | cons y ys =>
      cases c with
      | nil => simp [strCompare] at hbc
      | cons z zs =>
        rcases lt_trichotomy x y with hxy | hxy | hxy
        · rcases lt_trichotomy y z with hyz | hyz | hyz
          · have : x < z := lt_trans hxy hyz
            simp [strCompare, this]
          · subst hyz
            simp [strCompare, hxy]
          · simp [strCompare, hyz, asymm hyz] at hbc
        · subst hxy
          rcases lt_trichotomy x z with hxz | hxz | hxz
          · simp [strCompare, hxz]
          · subst hxz
            simp only [strCompare, lt_irrefl, if_neg (lt_irrefl x)] at hab hbc ⊢
            exact ih ys zs hab hbc
          · simp [strCompare, hxz, asymm hxz] at hbc
        · simp [strCompare, hxy, asymm hxy] at hab

theorem strCompare_le_trans (a b c : List Char) (hab : strCompare a b ≤ 0)
    (hbc : strCompare b c ≤ 0) : strCompare a c ≤ 0 := by
  rcases lt_or_eq_of_le hab with hab' | hab'
  · rcases lt_or_eq_of_le hbc with hbc' | hbc'
    · exact le_of_lt (strCompare_lt_trans a b c hab' hbc')
    · rw [strCompare_eq_zero b c hbc'] at hab'
      exact le_of_lt hab'
  · rw [strCompare_eq_zero a b hab']
    exact hbc

theorem cmpOk_compareStrings : CmpOk compareStrings := by
  constructor
  · intro a b
    exact strCompare_swap _ _
  · intro a b c hab hbc
    exact strCompare_le_trans _ _ _ hab hbc

/-- Numeric cross-multiplied comparison key: `compareNumbers a b` compares
`numKeyL a b` with `numKeyR a b`. -/
theorem compareNumbers_le_iff (a b : JSValue) :
    compareNumbers a b ≤ 0 ↔
      (jsNumber (jsString a)).1 * (10 : Int) ^ (jsNumber (jsString b)).2 ≤
        (jsNumber (jsString b)).1 * (10 : Int) ^ (jsNumber (jsString a)).2 := by
  unfold compareNumbers
  rcases lt_trichotomy
      ((jsNumber (jsString a)).1 * (10 : Int) ^ (jsNumber (jsString b)).2)
      ((jsNumber (jsString b)).1 * (10 : Int) ^ (jsNumber (jsString a)).2) with
    h | h | h
  · simp [h, le_of_lt h]
  · simp [h, lt_irrefl]
  · simp [h, asymm h, not_le.mpr h]

theorem cmpOk_compareNumbers : CmpOk compareNumbers := by
  constructor
  · intro a b
    unfold compareNumbers
    rcases lt_trichotomy
        ((jsNumber (jsString a)).1 * (10 : Int) ^ (jsNumber (jsString b)).2)
        ((jsNumber (jsString b)).1 * (10 : Int) ^ (jsNumber (jsString a)).2) with
      h | h | h
    · simp [h, asymm h]
    · simp [h, lt_irrefl]
    · simp [h, asymm h]
  · intro a b c hab hbc
    rw [compareNumbers_le_iff] at hab hbc ⊢
    set n1 := (jsNumber (jsString a)).1 with hn1
    set d1 := (jsNumber (jsString a)).2 with hd1
    set n2 := (jsNumber (jsString b)).1 with hn2
    set d2 := (jsNumber (jsString b)).2 with hd2
    set n3 := (jsNumber (jsString c)).1 with hn3
    set d3 := (jsNumber (jsString c)).2 with hd3
    have hten : (0 : Int) ≤ 10 := by norm_num
    have hA := mul_le_mul_of_nonneg_right hab (pow_nonneg hten d3)
    have hB := mul_le_mul_of_nonneg_right hbc (pow_nonneg hten d1)
    have hC : n1 * (10 : Int) ^ d3 * (10 : Int) ^ d2 ≤
        n3 * (10 : Int) ^ d1 * (10 : Int) ^ d2 := by
      have hA' : n1 * (10 : Int) ^ d3 * (10 : Int) ^ d2 ≤
          n2 * (10 : Int) ^ d1 * (10 : Int) ^ d3 := by
        calc n1 * (10 : Int) ^ d3 * (10 : Int) ^ d2
            = n1 * (10 : Int) ^ d2 * (10 : Int) ^ d3 := by ring
          _ ≤ n2 * (10 : Int) ^ d1 * (10 : Int) ^ d3 := hA
      have hB' : n2 * (10 : Int) ^ d1 * (10 : Int) ^ d3 ≤
          n3 * (10 : Int) ^ d1 * (10 : Int) ^ d2 := by
        calc n2 * (10 : Int) ^ d1 * (10 : Int) ^ d3
            = n2 * (10 : Int) ^ d3 * (10 : Int) ^ d1 := by ring
          _ ≤ n3 * (10 : Int) ^ d2 * (10 : Int) ^ d1 := hB
          _ = n3 * (10 : Int) ^ d1 * (10 : Int) ^ d2 := by ring
      exact le_trans hA' hB'
    exact le_of_mul_le_mul_right hC (pow_pos (by norm_num) d2)

/-- Every entry of the table, and the fallback, carries one of the two
comparators. -/
theorem findType_cmp (values : List JSValue) :
    ∀ ts : List ScalarType,
      (∀ t ∈ ts, t.compareFunction = compareStrings ∨
        t.compareFunction = compareNumbers) →
      (findType values ts).compareFunction = compareStrings ∨
        (findType values ts).compareFunction = compareNumbers := by
  intro ts
  induction ts with
  | nil =>
    intro _
    exact Or.inl rfl
  | cons t rest ih =>
    intro h
    by_cases ht : t.test values
    · simp only [findType, if_pos ht]
      exact h t (List.mem_cons_self t rest)
    · simp only [findType, if_neg ht]
      exact ih fun u hu => h u (List.mem_cons_of_mem t hu)

theorem inferType_cmp (values : List JSValue) :
    (inferType values).compareFunction = compareStrings ∨
      (inferType values).compareFunction = compareNumbers := by
  unfold inferType
  by_cases h : 0 < values.length
  · simp only [if_pos h]
    apply findType_cmp
    intro t ht
    simp only [knownTypes, List.mem_cons, List.not_mem_nil, or_false] at ht
    rcases ht with rfl | rfl | rfl | rfl | rfl | rfl
    · exact Or.inl rfl
    · exact Or.inl rfl
    · exact Or.inr rfl
    · exact Or.inr rfl
    · exact Or.inr rfl
    · exact Or.inl rfl
  · simp only [if_neg h]
    exact Or.inl rfl

theorem cmpOk_inferType (values : List JSValue) :
    CmpOk (inferType values).compareFunction := by
  rcases inferType_cmp values with h | h <;> rw [h]
  · exact cmpOk_compareStrings
  · exact cmpOk_compareNumbers

/-! ## Sortedness of the sort result -/

theorem insertSorted_pairwise (cmp : JSValue → JSValue → Int) (hc : CmpOk cmp)
    (x : JSValue) (l : List JSValue)
    (h : l.Pairwise (fun a b => cmp a b ≤ 0)) :
    (insertSorted cmp x l).Pairwise (fun a b => cmp a b ≤ 0) := by
  induction l with
  | nil => simp [insertSorted]
  | cons y ys ih =>
    rw [List.pairwise_cons] at h
    obtain ⟨hy, hys⟩ := h
    by_cases hxy : cmp x y < 0
    · simp only [insertSorted, if_pos hxy]
      rw [List.pairwise_cons]
      constructor
      · intro z hz
        rcases List.mem_cons.mp hz with rfl | hz'
        · exact le_of_lt hxy
        · exact hc.2 x y z (le_of_lt hxy) (hy z hz')
      · rw [List.pairwise_cons]
        exact ⟨hy, hys⟩
    · simp only [insertSorted, if_neg hxy]
      rw [List.pairwise_cons]
      constructor
      · intro z hz
        have hz' : z ∈ x :: ys := (insertSorted_perm cmp x ys).mem_iff.mp hz
        rcases List.mem_cons.mp hz' with rfl | hz''
        · have : cmp y z = -cmp z y := hc.1 z y
          rw [this]
          omega
        · exact hy z hz''
      · exact ih hys

theorem sortByCmp_pairwise (cmp : JSValue → JSValue → Int) (hc : CmpOk cmp)
    (l : List JSValue) :
    (sortByCmp cmp l).Pairwise (fun a b => cmp a b ≤ 0) := by
  have key : ∀ acc : List JSValue,
      acc.Pairwise (fun a b => cmp a b ≤ 0) →
      (l.foldl (fun a x => insertSorted cmp x a) acc).Pairwise
        (fun a b => cmp a b ≤ 0) := by
    induction l with
    | nil =>
      intro acc hacc
      simpa using hacc
    | cons x xs ih =>
      intro acc hacc
      rw [List.foldl_cons]
      exact ih _ (insertSorted_pairwise cmp hc x acc hacc)
  exact key [] List.Pairwise.nil

/-- The ordering that `Array.prototype.sort(cmp)` actually establishes on the
result array: every `undefined` element is placed after every defined one (the
comparator is never consulted for `undefined`), and defined elements are in
comparator order. -/
def sortRel (cmp : JSValue → JSValue → Int) (a b : JSValue) : Prop :=
  b = JSValue.undef ∨ (a ≠ JSValue.undef ∧ cmp a b ≤ 0)

theorem jsSort_pairwise (cmp : JSValue → JSValue → Int) (hc : CmpOk cmp)
    (l : List JSValue) :
    (jsSort cmp l).Pairwise (sortRel cmp) := by
  unfold jsSort
  rw [List.pairwise_append]
  refine ⟨?_, ?_, ?_⟩
  · have hmem : ∀ v ∈ sortByCmp cmp (l.filter (fun v => v ≠ JSValue.undef)),
        v ≠ JSValue.undef := by
      intro v hv
      have := (sortByCmp_perm cmp _).mem_iff.mp hv
      exact of_decide_eq_true (List.mem_filter.mp this).2
    refine List.Pairwise.imp_of_mem ?_
      (sortByCmp_pairwise cmp hc (l.filter (fun v => v ≠ JSValue.undef)))
    intro a b ha _ hab
    exact Or.inr ⟨hmem a ha, hab⟩
  · apply List.pairwise_of_forall_mem_list
    intro a _ b hb
    exact Or.inl (of_decide_eq_true (List.mem_filter.mp hb).2)
  · intro a _ b hb
    exact Or.inl (of_decide_eq_true (List.mem_filter.mp hb).2)

/-- On an input without `undefined` elements, `jsSort` is just the
comparator sort. -/
theorem jsSort_eq_sortByCmp (cmp : JSValue → JSValue → Int) (l : List JSValue)
    (h : JSValue.undef ∉ l) : jsSort cmp l = sortByCmp cmp l := by
  unfold jsSort
  have h1 : l.filter (fun v => v ≠ JSValue.undef) = l := by
    apply List.filter_eq_self.mpr
    intro v hv
    simp only [decide_eq_true_eq]
    intro hveq
    exact h (hveq ▸ hv)
  have h2 : l.filter (fun v => v = JSValue.undef) = [] := by
    apply List.filter_eq_nil_iff.mpr
    intro v hv
    simp only [decide_eq_true_eq]
    intro hveq
    exact h (hveq ▸ hv)
  rw [h1, h2, List.append_nil]

/-! ## Lemmas about the classifier and indexing -/

/-- The cascade loop returns the first table entry whose test holds. -/
theorem findType_eq_find (values : List JSValue) (ts : List ScalarType) :
    findType values ts =
      (ts.find? (fun t => t.test values)).getD defaultType := by
  induction ts with
  | nil => rfl
  | cons t rest ih =>
    by_cases h : t.test values
    · simp [findType, List.find?_cons, h]
    · have hf : t.test values = false := Bool.eq_false_iff.mpr h
      simp [findType, List.find?_cons, h, hf, ih]

/-- If no entry's test holds, the cascade falls through to the fallback. -/
theorem findType_eq_default (values : List JSValue) (ts : List ScalarType)
    (h : ∀ t ∈ ts, t.test values = false) : findType values ts = defaultType := by
  induction ts with
  | nil => rfl
  | cons t rest ih =>
    have ht := h t (List.mem_cons_self t rest)
    simp only [findType, ht, Bool.false_eq_true, if_false]
    exact ih fun u hu => h u (List.mem_cons_of_mem t hu)

/-- On a non-empty sequence of copies of one string, `every` collapses to the
pattern's verdict on that string. -/
theorem test_of_all_eq (c : String) (vs : List JSValue) (h1 : vs ≠ [])
    (h2 : ∀ v ∈ vs, v = JSValue.str c) (t : ScalarType) :
    t.test vs = t.regExpTest c := by
  obtain ⟨x, hx⟩ := List.exists_mem_of_ne_nil vs h1
  unfold ScalarType.test
  by_cases hr : t.regExpTest c
  · rw [hr]
    apply List.all_eq_true.mpr
    intro v hv
    rw [h2 v hv]
    simpa [jsString] using hr
  · have hr' : t.regExpTest c = false := Bool.eq_false_iff.mpr hr
    rw [hr']
    apply Bool.eq_false_iff.mpr
    intro hall
    have := List.all_eq_true.mp hall x hx
    rw [h2 x hx] at this
    simp only [jsString] at this
    exact hr this

/-- In-bounds array reads yield elements of the array. -/
theorem jsIndex_mem (l : List JSValue) (i : Nat) (h : i < l.length) :
    jsIndex l i ∈ l := by
  induction l generalizing i with
  | nil => simp at h
  | cons x xs ih =>
    cases i with
    | zero => simp [jsIndex]
    | succ j =>
      have hj : j < xs.length := by simpa using h
      have : jsIndex (x :: xs) (j + 1) = jsIndex xs j := by
        simp [jsIndex]
      rw [this]
      exact List.mem_cons_of_mem x (ih j hj)

/-- The empty array sorts to the empty array. -/
theorem jsSort_nil (cmp : JSValue → JSValue → Int) : jsSort cmp [] = [] := rfl

/-! ## The claims -/

/-- C1: the classifier tests the candidates in the fixed order
[DATETIME, DATE, INTEGER, BIGINT, REAL, TIME] and returns the first candidate
whose validation pattern matches every value; if some value fails every
candidate's pattern the result is TEXT; and on an empty sequence the result is
the TEXT fallback without any candidate being consulted (the `length > 0`
guard short-circuits). -/
theorem inferType_cascade (vs : List JSValue) :
    knownTypes.map ScalarType.id =
      ["DATETIME", "DATE", "INTEGER", "BIGINT", "REAL", "TIME"] ∧
    (vs ≠ [] → inferType vs =
      (knownTypes.find? (fun t => t.test vs)).getD defaultType) ∧
    ((∃ v ∈ vs, ∀ t ∈ knownTypes, t.regExpTest (jsString v) = false) →
      (inferType vs).id = "TEXT") ∧
    inferType [] = defaultType ∧ defaultType.id = "TEXT" := by
  refine ⟨rfl, ?_, ?_, rfl, rfl⟩
  · intro hne
    unfold inferType
    rw [if_pos (List.length_pos.mpr hne)]
    exact findType_eq_find vs knownTypes
  · rintro ⟨v, hv, hfail⟩
    have hall : ∀ t ∈ knownTypes, t.test vs = false := by
      intro t ht
      apply Bool.eq_false_iff.mpr
      intro htest
      have := List.all_eq_true.mp htest v hv
      rw [hfail t ht] at this
      exact Bool.false_ne_true this
    unfold inferType
    by_cases hlen : 0 < vs.length
    · rw [if_pos hlen, findType_eq_default vs knownTypes hall]
      rfl
    · rw [if_neg hlen]
      rfl

/-- Witness for C1: a singleton integer column is classified by the first
matching candidate of the table, and a column containing a value matching no
pattern is TEXT. -/
theorem inferType_cascade_witness :
    inferType [JSValue.str "5"] =
      (knownTypes.find? (fun t => t.test [JSValue.str "5"])).getD defaultType ∧
    (inferType [JSValue.str "hello"]).id = "TEXT" := by
  constructor
  · exact (inferType_cascade [JSValue.str "5"]).2.1 (by decide)
  · exact (inferType_cascade [JSValue.str "hello"]).2.2.1
      ⟨JSValue.str "hello", by decide, by decide⟩

/-- C2 (code evaluated at the failing input): on `["", "  ", undefined]` the
filter tests `isEmpty(String(value))`; `String(undefined)` is the
non-whitespace string `"undefined"`, so the `undefined` sentinel survives into
`nonEmptyValues` and is counted, although `isEmpty` itself holds on the raw
sentinel — contradicting the claimed `nonEmptyValues == []` and empty counts
(`typeName`, `minimum`, `maximum` do come out as claimed). -/
theorem synopsize_all_missing_bug :
    (synopsize [JSValue.str "", JSValue.str "  ", JSValue.undef]).typeName =
      "TEXT" ∧
    (synopsize [JSValue.str "", JSValue.str "  ", JSValue.undef]).nonEmptyValues =
      [JSValue.undef] ∧
    (synopsize [JSValue.str "", JSValue.str "  ", JSValue.undef]).minimum =
      JSValue.undef ∧
    (synopsize [JSValue.str "", JSValue.str "  ", JSValue.undef]).maximum =
      JSValue.undef ∧
    (synopsize [JSValue.str "", JSValue.str "  ", JSValue.undef]).counts =
      [(JSValue.undef, 1)] ∧
    isEmpty JSValue.undef = true ∧
    isEmpty (JSValue.str (jsString JSValue.undef)) = false := by
  decide

/-- C3 (counterexample): the returned `nonEmptyValues` is not the
order-preserving subsequence of the input — on `["b", "a"]` the non-missing
subsequence in input order is `["b", "a"]`, but the field holds the in-place
sorted `["a", "b"]`. -/
theorem nonEmptyValues_not_order_preserving :
    filterNonEmpty [JSValue.str "b", JSValue.str "a"] =
      [JSValue.str "b", JSValue.str "a"] ∧
    (synopsize [JSValue.str "b", JSValue.str "a"]).nonEmptyValues =
      [JSValue.str "a", JSValue.str "b"] ∧
    (synopsize [JSValue.str "b", JSValue.str "a"]).nonEmptyValues ≠
      filterNonEmpty [JSValue.str "b", JSValue.str "a"] := by
  decide

/-- C3 (amended): `nonEmptyValues` holds exactly the non-missing entries of
the column — the entries for which the (string-coerced) emptiness predicate is
false — but as the comparator-sorted permutation of the order-preserving
subsequence, because the aggregator sorts the filtered array in place before
returning it. -/
theorem nonEmptyValues_sorted_filter (vs : List JSValue) :
    (synopsize vs).nonEmptyValues =
      jsSort (inferType (filterNonEmpty vs)).compareFunction
        (filterNonEmpty vs) ∧
    ((synopsize vs).nonEmptyValues).Perm (filterNonEmpty vs) :=
  ⟨rfl, jsSort_perm _ _⟩

/-- C4: `minimum`/`maximum` are the first and last element of the non-missing
values sorted under the chosen type's comparator; both are `undefined` when
there are no non-missing values; when there are, both extrema are actual
column values. -/
theorem synopsize_extrema (vs : List JSValue) :
    (synopsize vs).minimum =
      jsIndex (jsSort (inferType (filterNonEmpty vs)).compareFunction
        (filterNonEmpty vs)) 0 ∧
    (synopsize vs).maximum =
      jsIndex (jsSort (inferType (filterNonEmpty vs)).compareFunction
          (filterNonEmpty vs))
        ((jsSort (inferType (filterNonEmpty vs)).compareFunction
          (filterNonEmpty vs)).length - 1) ∧
    (filterNonEmpty vs = [] →
      (synopsize vs).minimum = JSValue.undef ∧
      (synopsize vs).maximum = JSValue.undef) ∧
    (filterNonEmpty vs ≠ [] →
      (synopsize vs).minimum ∈ filterNonEmpty vs ∧
      (synopsize vs).maximum ∈ filterNonEmpty vs) := by
  refine ⟨rfl, rfl, ?_, ?_⟩
  · intro h
    have : (synopsize vs).minimum =
        jsIndex (jsSort (inferType (filterNonEmpty vs)).compareFunction
          (filterNonEmpty vs)) 0 := rfl
    rw [this]
    have : (synopsize vs).maximum =
        jsIndex (jsSort (inferType (filterNonEmpty vs)).compareFunction
            (filterNonEmpty vs))
          ((jsSort (inferType (filterNonEmpty vs)).compareFunction
            (filterNonEmpty vs)).length - 1) := rfl
    rw [this, h, jsSort_nil]
    exact ⟨rfl, rfl⟩
  · intro h
    have hperm := jsSort_perm
      (inferType (filterNonEmpty vs)).compareFunction (filterNonEmpty vs)
    have hlen : 0 < (jsSort (inferType (filterNonEmpty vs)).compareFunction
        (filterNonEmpty vs)).length := by
      rw [hperm.length_eq]
      exact List.length_pos.mpr h
    constructor
    · exact hperm.mem_iff.mp (jsIndex_mem _ 0 hlen)
    · exact hperm.mem_iff.mp (jsIndex_mem _ _ (Nat.sub_lt hlen Nat.one_pos))

/-- Witness for C4: on `["b", "a"]` the extrema are members of the non-missing
values and `minimum` reads index 0 of the sorted array. -/
theorem synopsize_extrema_witness :
    (synopsize [JSValue.str "b", JSValue.str "a"]).minimum ∈
      filterNonEmpty [JSValue.str "b", JSValue.str "a"] ∧
    (synopsize [JSValue.str "b", JSValue.str "a"]).maximum ∈
      filterNonEmpty [JSValue.str "b", JSValue.str "a"] ∧
    (synopsize [JSValue.str "b", JSValue.str "a"]).minimum =
      jsIndex (jsSort
        (inferType (filterNonEmpty [JSValue.str "b", JSValue.str "a"])).compareFunction
        (filterNonEmpty [JSValue.str "b", JSValue.str "a"])) 0 := by
  have h := synopsize_extrema [JSValue.str "b", JSValue.str "a"]
  have hne := h.2.2.2 (by decide)
  exact ⟨hne.1, hne.2, h.1⟩

/-- C5: INTEGER, BIGINT and REAL carry the numeric comparator (DATETIME, DATE
and TIME the string one); numerically `"9" < "10"` while lexicographically
`"10" < "9"`; and the column `["9", "10", "2"]` classifies as INTEGER with
minimum `"2"` and maximum `"10"`. -/
theorem numeric_types_numeric_order :
    knownTypes.map (fun t => (t.id, t.compareFunction)) =
      [("DATETIME", compareStrings), ("DATE", compareStrings),
       ("INTEGER", compareNumbers), ("BIGINT", compareNumbers),
       ("REAL", compareNumbers), ("TIME", compareStrings)] ∧
    compareNumbers (JSValue.str "9") (JSValue.str "10") < 0 ∧
    0 < compareStrings (JSValue.str "9") (JSValue.str "10") ∧
    (synopsize [JSValue.str "9", JSValue.str "10", JSValue.str "2"]).typeName =
      "INTEGER" ∧
    (synopsize [JSValue.str "9", JSValue.str "10", JSValue.str "2"]).minimum =
      JSValue.str "2" ∧
    (synopsize [JSValue.str "9", JSValue.str "10", JSValue.str "2"]).maximum =
      JSValue.str "10" := by
  refine ⟨rfl, by decide, by decide, by decide, by decide, by decide⟩

/-- C6: every non-empty column of `"20160118"` values classifies as DATE, even
though each value also matches the INTEGER pattern, because the date-shaped
candidates are tested first. -/
theorem date_tested_before_integer (vs : List JSValue) (h1 : vs ≠ [])
    (h2 : ∀ v ∈ vs, v = JSValue.str "20160118") :
    (synopsize vs).typeName = "DATE" ∧
    matchINTEGER "20160118" = true ∧ matchDATE "20160118" = true := by
  have hfilter : filterNonEmpty vs = vs := by
    apply List.filter_eq_self.mpr
    intro v hv
    rw [h2 v hv]
    decide
  have hlen : 0 < vs.length := List.length_pos.mpr h1
  have htest : ∀ t : ScalarType, t.test vs = t.regExpTest "20160118" :=
    fun t => test_of_all_eq "20160118" vs h1 h2 t
  have hDT : matchDATETIME "20160118" = false := by decide
  have hD : matchDATE "20160118" = true := by decide
  have hinfer : inferType vs = ⟨"DATE", matchDATE, compareStrings⟩ := by
    unfold inferType
    rw [if_pos hlen]
    simp only [knownTypes, findType, htest, hDT, hD, Bool.false_eq_true,
      if_false, if_true]
  have hty : (synopsize vs).typeName = (inferType (filterNonEmpty vs)).id := rfl
  rw [hty, hfilter, hinfer]
  exact ⟨rfl, by decide, hD⟩

/-- Witness for C6: the singleton column `["20160118"]`. -/
theorem date_tested_before_integer_witness :
    (synopsize [JSValue.str "20160118"]).typeName = "DATE" ∧
    matchINTEGER "20160118" = true ∧ matchDATE "20160118" = true :=
  date_tested_before_integer [JSValue.str "20160118"] (by decide) (by decide)

/-- C7: `counts` maps each value present among the non-missing values to its
occurrence count, has no entry for any other value, and its counts sum to the
number of non-missing values (the `nonEmptyValues` field is a permutation of
the non-missing subsequence, so occurrence counts agree between the two). -/
theorem counts_spec (vs : List JSValue) :
    (∀ v ∈ (synopsize vs).nonEmptyValues,
      lookupCount (synopsize vs).counts v =
        some (((synopsize vs).nonEmptyValues).count v)) ∧
    (∀ v, v ∉ (synopsize vs).nonEmptyValues →
      lookupCount (synopsize vs).counts v = none) ∧
    sumCounts (synopsize vs).counts = ((synopsize vs).nonEmptyValues).length ∧
    ((synopsize vs).nonEmptyValues).Perm (filterNonEmpty vs) := by
  have hc : (synopsize vs).counts = count ((synopsize vs).nonEmptyValues) := rfl
  refine ⟨?_, ?_, ?_, jsSort_perm _ _⟩
  · intro v hv
    rw [hc]
    exact lookupCount_count_of_mem _ v hv
  · intro v hv
    rw [hc]
    exact lookupCount_count_of_not_mem _ v hv
  · rw [hc]
    exact sumCounts_count _

/-- Witness for C7: on `["a", "b", "a"]`, the count of `"a"` is 2, an absent
value has no entry, and the counts sum to 3. -/
theorem counts_spec_witness :
    lookupCount (synopsize [JSValue.str "a", JSValue.str "b", JSValue.str "a"]).counts
      (JSValue.str "a") = some 2 ∧
    lookupCount (synopsize [JSValue.str "a", JSValue.str "b", JSValue.str "a"]).counts
      (JSValue.str "z") = none ∧
    sumCounts (synopsize [JSValue.str "a", JSValue.str "b", JSValue.str "a"]).counts = 3 := by
  have h := counts_spec [JSValue.str "a", JSValue.str "b", JSValue.str "a"]
  refine ⟨?_, ?_, ?_⟩
  · rw [h.1 (JSValue.str "a") (by decide)]
    decide
  · exact h.2.1 (JSValue.str "z") (by decide)
  · rw [h.2.2.1]
    decide

/-- C8: `synopsize` is a total function (every input shape, including the
empty and the wholly-missing column, yields a well-formed record rather than
an error — in this embedding it is a Lean function, total by construction);
the empty column yields TEXT with empty counts and undefined extrema, a
wholly-missing string column likewise, and the singleton-value column
`["a","a","a"]` yields TEXT with extrema `"a"` and counts `{"a": 3}`. -/
theorem synopsize_degenerate_shapes :
    synopsize [] =
      ⟨"TEXT", [], [], JSValue.undef, JSValue.undef, []⟩ ∧
    (synopsize [JSValue.str "", JSValue.str " "]).typeName = "TEXT" ∧
    (synopsize [JSValue.str "", JSValue.str " "]).nonEmptyValues = [] ∧
    (synopsize [JSValue.str "", JSValue.str " "]).minimum = JSValue.undef ∧
    (synopsize [JSValue.str "", JSValue.str " "]).counts = [] ∧
    (synopsize [JSValue.str "a", JSValue.str "a", JSValue.str "a"]).typeName =
      "TEXT" ∧
    (synopsize [JSValue.str "a", JSValue.str "a", JSValue.str "a"]).minimum =
      JSValue.str "a" ∧
    (synopsize [JSValue.str "a", JSValue.str "a", JSValue.str "a"]).maximum =
      JSValue.str "a" ∧
    (synopsize [JSValue.str "a", JSValue.str "a", JSValue.str "a"]).counts =
      [(JSValue.str "a", 3)] := by
  decide

/-- C9: the `values` field of the result is the original input column,
unchanged — same elements, length and order (the source's only mutation, the
in-place sort, acts on the new array produced by `filter`, never on the
input). -/
theorem synopsize_preserves_values (vs : List JSValue) :
    (synopsize vs).values = vs ∧ ((synopsize vs).values).length = vs.length :=
  ⟨rfl, rfl⟩

/-- C10: the returned `nonEmptyValues` field is itself the sorted array — the
filtered array sorted in place under the inferred type's comparator — and it is
the very array whose first and last entries are read as the extrema and over
which `counts` is computed; it is ordered by the sort relation of
`Array.prototype.sort` (comparator order, `undefined` last), which on columns
without `undefined` is plain comparator order. -/
theorem nonEmptyValues_is_the_sorted_array (vs : List JSValue) :
    (synopsize vs).nonEmptyValues =
      jsSort (inferType (filterNonEmpty vs)).compareFunction
        (filterNonEmpty vs) ∧
    (synopsize vs).minimum = jsIndex ((synopsize vs).nonEmptyValues) 0 ∧
    (synopsize vs).maximum = jsIndex ((synopsize vs).nonEmptyValues)
      (((synopsize vs).nonEmptyValues).length - 1) ∧
    (synopsize vs).counts = count ((synopsize vs).nonEmptyValues) ∧
    ((synopsize vs).nonEmptyValues).Pairwise
      (sortRel (inferType (filterNonEmpty vs)).compareFunction) ∧
    (JSValue.undef ∉ vs →
      ((synopsize vs).nonEmptyValues).Pairwise
        (fun a b =>
          (inferType (filterNonEmpty vs)).compareFunction a b ≤ 0)) := by
  refine ⟨rfl, rfl, rfl, rfl, ?_, ?_⟩
  · exact jsSort_pairwise _ (cmpOk_inferType _) _
  · intro hundef
    have hnotmem : JSValue.undef ∉ filterNonEmpty vs := by
      intro hmem
      exact hundef (List.mem_of_mem_filter hmem)
    have heq : (synopsize vs).nonEmptyValues =
        sortByCmp (inferType (filterNonEmpty vs)).compareFunction
          (filterNonEmpty vs) :=
      jsSort_eq_sortByCmp _ _ hnotmem
    rw [heq]
    exact sortByCmp_pairwise _ (cmpOk_inferType _) _

/-- Witness for C10: on `["b", "a"]` (no `undefined` present) the returned
`nonEmptyValues` is pairwise ordered by the inferred comparator and `minimum`
reads its index 0. -/
theorem nonEmptyValues_is_the_sorted_array_witness :
    ((synopsize [JSValue.str "b", JSValue.str "a"]).nonEmptyValues).Pairwise
      (fun a b =>
        (inferType (filterNonEmpty [JSValue.str "b", JSValue.str "a"])).compareFunction
          a b ≤ 0) ∧
    (synopsize [JSValue.str "b", JSValue.str "a"]).minimum =
      jsIndex ((synopsize [JSValue.str "b", JSValue.str "a"]).nonEmptyValues) 0 := by
  have h := nonEmptyValues_is_the_sorted_array [JSValue.str "b", JSValue.str "a"]
  exact ⟨h.2.2.2.2.2 (by decide), h.2.1⟩

end Synopsize
